import Mathlib

/-!
# Verification of the review-driven rating aggregation in `lib/room-service.ts`

This file gives a shallow embedding of the data-access layer of the
rental-room application (`src/lib/room-service.ts`) and proves or refutes
the frozen claims about it.

Modelling conventions:

* Firestore collections are association lists `List (String × δ)` keyed by
  document id.  `setDoc` is an upsert (`setA`), `updateDoc` fails when the
  document is absent (`updateA`), `deleteDoc` removes the document
  (`deleteA`).  Query results are returned in list order.
* JavaScript numbers are IEEE-754 binary64 values; we represent them by the
  exact rational value they denote, and model every arithmetic operation of
  the source (`+=`, `/`) by exact rational arithmetic followed by
  `doubleRound`, rounding to 53 significant bits with ties to even — the
  IEEE-754 `roundTiesToEven` rule (overflow/subnormal ranges are outside
  every value handled here).
* `Number.parseFloat(x.toFixed(1))`: per the ECMAScript spec, `toFixed(1)`
  picks the integer `n` minimising `|n / 10 - x|` over the exact value of
  the double `x`, ties to the larger `n`, which is `⌊10 * x + 1/2⌋`
  (`toFixed1`).  The parsed-back double is the one denoted by that
  one-decimal string; we represent the stored `rating` field by the exact
  decimal value `n / 10`, which is in bijection with it.
* `serverTimestamp()` is modelled by an explicit `now : ℕ` parameter;
  `getCurrentUser()` (ambient auth state) by an `Option User` parameter.
* Remote-call failure injection: `updateRoomRatingCore` takes the outcome
  of the reviews query as an explicit `Except` argument; the deterministic
  wrapper `updateRoomRating` instantiates it with the successful query.
  A failing `updateDoc` on a missing room document is reported with the
  Firestore "No document to update" error.

All operations are state passing: they return the `Except` outcome of the
original `async` function together with the resulting database state.
-/

/-- An authenticated Firebase user (`auth.currentUser`): `uid` plus a
possibly-null `displayName`. -/
structure User where
  uid : String
  displayName : Option String
deriving DecidableEq, Repr

/-- A document of the `reviews` collection, as written by `addReview`. -/
structure ReviewDoc where
  userId : String
  roomId : String
  userName : String
  rating : ℚ
  comment : String
  createdAt : ℕ
  updatedAt : ℕ
deriving DecidableEq, Repr

/-- A document of the `rooms` collection (the TS `RoomData` interface,
without the separately-held document id).  Optional interface fields are
`Option`-valued. -/
structure RoomDoc where
  title : String
  rent : String
  deposit : String
  description : String
  images : List String
  location : String
  amenities : List String
  featured : Option Bool
  rating : Option ℚ
  reviews : Option ℕ
  owner : Option String
  ownerName : Option String
  createdAt : ℕ
  updatedAt : ℕ
deriving DecidableEq, Repr

/-- A document of the `favorites` collection. -/
structure FavDoc where
  userId : String
  roomId : String
  createdAt : ℕ
deriving DecidableEq, Repr

/-- The Firestore state visible to `room-service.ts`. -/
structure DB where
  rooms : List (String × RoomDoc)
  reviews : List (String × ReviewDoc)
  favorites : List (String × FavDoc)
deriving DecidableEq, Repr

/-- `getDoc`: fetch the document stored under key `k`. -/
def lookupA {α : Type} (k : String) : List (String × α) → Option α
  | [] => none
  | p :: l => if p.1 = k then some p.2 else lookupA k l

/-- `setDoc`: create the document under key `k`, or overwrite it in place. -/
def setA {α : Type} (k : String) (v : α) : List (String × α) → List (String × α)
  | [] => [(k, v)]
  | p :: l => if p.1 = k then (k, v) :: l else p :: setA k v l

/-- `updateDoc`: merge fields (given as a function on the stored document)
into the document under key `k`; `none` when the document is absent. -/
def updateA {α : Type} (k : String) (f : α → α) :
    List (String × α) → Option (List (String × α))
  | [] => none
  | p :: l => if p.1 = k then some ((k, f p.2) :: l) else (updateA k f l).map (p :: ·)

/-- `deleteDoc`: remove the document under key `k`. -/
def deleteA {α : Type} (k : String) : List (String × α) → List (String × α)
  | [] => []
  | p :: l => if p.1 = k then l else p :: deleteA k l

/-! ## IEEE-754 binary64 rounding, over exact rationals -/

/-- Round a rational to an integer, ties to even. -/
def roundHalfEven (x : ℚ) : ℤ :=
  let f := ⌊x⌋
  let r := x - f
  if r < 1/2 then f
  else if 1/2 < r then f + 1
  else if f % 2 = 0 then f else f + 1

/-- `⌊log₂ q⌋` for a positive rational, from the bit lengths of numerator
and denominator. -/
def qlog2 (q : ℚ) : ℤ :=
  let k : ℤ := (Nat.log2 q.num.natAbs : ℤ) - (Nat.log2 q.den : ℤ)
  if q < (2:ℚ) ^ k then k - 1 else k

/-- Round a rational to the nearest IEEE-754 binary64 value (53 significant
bits, ties to even), returned as the exact rational it denotes.  Every
operation on JS numbers in the source is exact rational arithmetic followed
by this rounding step. -/
def doubleRound (q : ℚ) : ℚ :=
  if q = 0 then 0
  else
    let a := |q|
    let e : ℤ := qlog2 a - 52
    let m := roundHalfEven (a * (2:ℚ) ^ (-e))
    (if q < 0 then (-1 : ℚ) else 1) * (m : ℚ) * (2:ℚ) ^ e

/-- The integer chosen by ECMAScript `Number.prototype.toFixed(1)` for the
double of exact value `x`: the `n` minimising `|n / 10 - x|`, ties to the
larger `n`. -/
def toFixedInt1 (x : ℚ) : ℤ := ⌊10 * x + 1/2⌋

/-- `Number.parseFloat(x.toFixed(1))`, represented by the exact decimal
value of the produced one-decimal string. -/
def toFixed1 (x : ℚ) : ℚ := (toFixedInt1 x : ℚ) / 10

/-! ## The rating computation (`updateRoomRating`, lines 337–346) -/

/-- The running total `totalRating` accumulated by
`querySnapshot.forEach((doc) => { totalRating += doc.data().rating ... })`:
a left fold of double additions. -/
def jsSum (rs : List ℚ) : ℚ := rs.foldl (fun acc r => doubleRound (acc + r)) 0

/-- The value stored into the room's `rating` field by `updateRoomRating`,
as a function of the ratings of the queried review documents:
`reviewCount > 0 ? totalRating / reviewCount : 0`, then
`Number.parseFloat(averageRating.toFixed(1))`. -/
def computeAvg (rs : List ℚ) : ℚ :=
  let reviewCount := rs.length
  let averageRating :=
    if 0 < reviewCount then doubleRound (jsSum rs / (reviewCount : ℚ)) else 0
  toFixed1 averageRating

/-! ## The operations of `room-service.ts` -/

/-- JS `user.displayName || "Anonymous"`: `null` and the empty string are
falsy. -/
def jsDisplayName : Option String → String
  | none => "Anonymous"
  | some s => if s = "" then "Anonymous" else s

/-- The reviews-collection query `where("roomId", "==", roomId)`. -/
def queryReviews (db : DB) (roomId : String) : List ReviewDoc :=
  (db.reviews.filter (fun p => p.2.roomId = roomId)).map (·.2)

/-- `updateRoomRating` (lines 330–359) with the outcome of the
`getDocs(reviewsQuery)` remote call supplied explicitly, so that a failing
query can be injected.  On query failure the error is rethrown and no write
happens; otherwise the summary is computed and merged onto the room
document. -/
def updateRoomRatingCore (qres : Except String (List ReviewDoc)) (now : ℕ)
    (db : DB) (roomId : String) : Except String Unit × DB :=
  match qres with
  | .error e => (.error e, db)
  | .ok docs =>
    let reviewCount := docs.length
    let averageRating :=
      if 0 < reviewCount then
        doubleRound (jsSum (docs.map (·.rating)) / (reviewCount : ℚ))
      else 0
    match updateA roomId
        (fun room => { room with
          rating := some (toFixed1 averageRating),
          reviews := some reviewCount,
          updatedAt := now }) db.rooms with
    | some rooms' => (.ok (), { db with rooms := rooms' })
    | none => (.error "No document to update", db)

/-- `updateRoomRating` with the reviews query answered by the store. -/
def updateRoomRating (now : ℕ) (db : DB) (roomId : String) :
    Except String Unit × DB :=
  updateRoomRatingCore (.ok (queryReviews db roomId)) now db roomId

/-- `addReview` (lines 300–327): authentication guard, upsert of the review
document under the composite key `uid_roomId`, then recomputation of the
room's rating. -/
def addReview (user : Option User) (now : ℕ) (db : DB) (roomId : String)
    (rating : ℚ) (comment : String) : Except String Unit × DB :=
  match user with
  | none => (.error "User not authenticated", db)
  | some u =>
    let reviewDoc : ReviewDoc :=
      { userId := u.uid
        roomId := roomId
        userName := jsDisplayName u.displayName
        rating := rating
        comment := comment
        createdAt := now
        updatedAt := now }
    let db1 : DB := { db with reviews := setA (u.uid ++ "_" ++ roomId) reviewDoc db.reviews }
    match updateRoomRating now db1 roomId with
    | (.ok _, db2) => (.ok (), db2)
    | (.error e, db2) => (.error e, db2)

/-- The `Partial<RoomData>` argument of `updateRoom`: present fields
overwrite the stored ones. -/
structure RoomPatch where
  title : Option String := none
  rent : Option String := none
  deposit : Option String := none
  description : Option String := none
  images : Option (List String) := none
  location : Option String := none
  amenities : Option (List String) := none
  featured : Option Bool := none
  rating : Option ℚ := none
  reviews : Option ℕ := none
  owner : Option String := none
  ownerName : Option String := none
deriving DecidableEq, Repr

/-- Spreading a `Partial<RoomData>` onto a stored room document, plus the
fresh `updatedAt` timestamp, as in `updateDoc(roomRef, {...roomData,
updatedAt: serverTimestamp()})`. -/
def applyPatch (p : RoomPatch) (now : ℕ) (r : RoomDoc) : RoomDoc :=
  { title := p.title.getD r.title
    rent := p.rent.getD r.rent
    deposit := p.deposit.getD r.deposit
    description := p.description.getD r.description
    images := p.images.getD r.images
    location := p.location.getD r.location
    amenities := p.amenities.getD r.amenities
    featured := match p.featured with | some b => some b | none => r.featured
    rating := match p.rating with | some x => some x | none => r.rating
    reviews := match p.reviews with | some n => some n | none => r.reviews
    owner := match p.owner with | some o => some o | none => r.owner
    ownerName := match p.ownerName with | some o => some o | none => r.ownerName
    createdAt := r.createdAt
    updatedAt := now }

/-- `updateRoom` (lines 70–94): authentication guard, existence check,
ownership check, then the merge write. -/
def updateRoom (user : Option User) (now : ℕ) (db : DB) (id : String)
    (patch : RoomPatch) : Except String Unit × DB :=
  match user with
  | none => (.error "User not authenticated", db)
  | some u =>
    match lookupA id db.rooms with
    | none => (.error "Room not found", db)
    | some room =>
      if room.owner ≠ some u.uid then
        (.error "Not authorized to update this room", db)
      else
        match updateA id (applyPatch patch now) db.rooms with
        | some rooms' => (.ok (), { db with rooms := rooms' })
        | none => (.error "No document to update", db)

/-- `deleteRoom` (lines 98–118): authentication guard, existence check,
ownership check, then the delete. -/
def deleteRoom (user : Option User) (db : DB) (id : String) :
    Except String Unit × DB :=
  match user with
  | none => (.error "User not authenticated", db)
  | some u =>
    match lookupA id db.rooms with
    | none => (.error "Room not found", db)
    | some room =>
      if room.owner ≠ some u.uid then
        (.error "Not authorized to delete this room", db)
      else
        (.ok (), { db with rooms := deleteA id db.rooms })

/-- `getRoomById` (lines 145–160). -/
def getRoomById (db : DB) (id : String) : Except String RoomDoc :=
  match lookupA id db.rooms with
  | none => .error "Room not found"
  | some room => .ok room

/-- `getFavorites` (lines 262–296): query the user's favorite documents,
then fetch each favorited room, skipping ids whose `getRoomById` fails
(the `catch` branch only logs a warning). -/
def getFavorites (user : Option User) (db : DB) : Except String (List RoomDoc) :=
  match user with
  | none => .error "User not authenticated"
  | some u =>
    let favoriteIds :=
      ((db.favorites.filter (fun p => p.2.userId = u.uid)).map (fun p => p.2.roomId))
    .ok (favoriteIds.foldl
      (fun rooms id =>
        match getRoomById db id with
        | .ok room => rooms ++ [room]
        | .error _ => rooms) [])

/-! ## Association-list lemmas -/

theorem lookupA_setA_self {α : Type} (k : String) (v : α) (l : List (String × α)) :
    lookupA k (setA k v l) = some v := by
  induction l with
  | nil => simp [setA, lookupA]
  | cons p l ih =>
    by_cases h : p.1 = k
    · simp [setA, h, lookupA]
    · simp [setA, h, lookupA, ih]

theorem setA_of_lookupA_none {α : Type} {k : String} {l : List (String × α)}
    (h : lookupA k l = none) (v : α) : setA k v l = l ++ [(k, v)] := by
  induction l with
  | nil => simp [setA]
  | cons p l ih =>
    by_cases hp : p.1 = k
    · simp [lookupA, hp] at h
    · simp [lookupA, hp] at h
      simp [setA, hp, ih h]

theorem length_setA_of_lookupA_some {α : Type} {k : String} {l : List (String × α)}
    {v₀ : α} (h : lookupA k l = some v₀) (v : α) :
    (setA k v l).length = l.length := by
  induction l with
  | nil => simp [lookupA] at h
  | cons p l ih =>
    by_cases hp : p.1 = k
    · simp [setA, hp]
    · simp [lookupA, hp] at h
      simp [setA, hp, ih h]

theorem mem_of_lookupA {α : Type} {k : String} {l : List (String × α)} {v : α}
    (h : lookupA k l = some v) : (k, v) ∈ l := by
  induction l with
  | nil => simp [lookupA] at h
  | cons p l ih =>
    by_cases hp : p.1 = k
    · simp [lookupA, hp] at h
      have : p = (k, v) := by cases p; simp_all
      rw [this]
      exact List.mem_cons_self _ _
    · simp [lookupA, hp] at h
      exact List.mem_cons_of_mem _ (ih h)

theorem filter_setA_length {α : Type} {k : String} {l : List (String × α)}
    {v₀ : α} (h : lookupA k l = some v₀) (v : α)
    (q : String × α → Bool) (hv₀ : q (k, v₀) = true) (hv : q (k, v) = true) :
    ((setA k v l).filter q).length = (l.filter q).length := by
  induction l with
  | nil => simp [lookupA] at h
  | cons p l ih =>
    by_cases hp : p.1 = k
    · simp only [lookupA, hp, if_pos rfl, Option.some.injEq] at h
      have hpk : p = (k, v₀) := by cases p; simp_all
      subst hpk
      simp [setA, List.filter, hv₀, hv]
    · simp only [lookupA, hp, if_neg hp] at h
      simp only [setA, if_neg hp]
      by_cases hq : q p
      · simp [List.filter, hq, ih h]
      · simp [List.filter, hq, ih h]

theorem updateA_of_lookupA_some {α : Type} {k : String} {l : List (String × α)}
    {v : α} (h : lookupA k l = some v) (f : α → α) :
    ∃ l', updateA k f l = some l' ∧ lookupA k l' = some (f v) ∧
      l'.length = l.length := by
  induction l with
  | nil => simp [lookupA] at h
  | cons p l ih =>
    by_cases hp : p.1 = k
    · simp [lookupA, hp] at h
      exact ⟨(k, f p.2) :: l, by simp [updateA, hp], by simp [lookupA, h], by simp⟩
    · simp only [lookupA, hp, if_neg hp] at h
      obtain ⟨l', hl', hlook, hlen⟩ := ih h
      exact ⟨p :: l', by simp [updateA, hp, hl'], by simp [lookupA, hp, hlook], by simp [hlen]⟩

theorem updateA_lookupA_of_eq {α : Type} {k : String} {l l' : List (String × α)}
    (f : α → α) (h : updateA k f l = some l') :
    lookupA k l' = (lookupA k l).map f := by
  induction l generalizing l' with
  | nil => simp [updateA] at h
  | cons p l ih =>
    by_cases hp : p.1 = k
    · simp [updateA, hp] at h
      subst h
      simp [lookupA, hp]
    · simp only [updateA, if_neg hp, Option.map_eq_some'] at h
      obtain ⟨l'', hl'', rfl⟩ := h
      simp [lookupA, hp, ih hl'']

/-! ## C4: unauthenticated `addReview` fails before any write -/

/-- C4: when no user is authenticated, `addReview` fails with the
authentication error and the database is completely unchanged: no review
document is created or modified and the room's `rating`/`reviews` fields
keep their previous values (in particular, `updateRoomRating` never runs). -/
theorem addReview_unauthenticated (now : ℕ) (db : DB) (roomId : String)
    (rating : ℚ) (comment : String) :
    addReview none now db roomId rating comment = (.error "User not authenticated", db) :=
  rfl

/-! ## C5: a failing reviews query aborts `updateRoomRating` before the write -/

/-- C5: when the `getDocs` reviews query fails, `updateRoomRating`
propagates that same error to its caller and performs no write: the
database — in particular the room document's `rating`, `reviews` and
`updatedAt` fields — is returned unchanged. -/
theorem updateRoomRating_queryError (e : String) (now : ℕ) (db : DB)
    (roomId : String) :
    updateRoomRatingCore (.error e) now db roomId = (.error e, db) :=
  rfl

/-! ## C9: ownership guards of `updateRoom` and `deleteRoom` -/

/-- C9: for an authenticated caller who does not own the target room,
`updateRoom` and `deleteRoom` fail with the not-authorized errors and leave
the database unchanged; when the room does not exist they fail with the
room-not-found error, again leaving the database unchanged. -/
theorem updateRoom_deleteRoom_guards (u : User) (now : ℕ) (db : DB)
    (id : String) (patch : RoomPatch) :
    (∀ room, lookupA id db.rooms = some room → room.owner ≠ some u.uid →
      updateRoom (some u) now db id patch =
        (.error "Not authorized to update this room", db) ∧
      deleteRoom (some u) db id =
        (.error "Not authorized to delete this room", db)) ∧
    (lookupA id db.rooms = none →
      updateRoom (some u) now db id patch = (.error "Room not found", db) ∧
      deleteRoom (some u) db id = (.error "Room not found", db)) := by
  refine ⟨fun room hroom hown => ⟨?_, ?_⟩, fun hnone => ⟨?_, ?_⟩⟩
  · simp [updateRoom, hroom, hown]
  · simp [deleteRoom, hroom, hown]
  · simp [updateRoom, hnone]
  · simp [deleteRoom, hnone]

/-- A concrete room document owned by `"alice"`, used by witnesses. -/
def aliceRoom : RoomDoc :=
  { title := "Cozy studio"
    rent := "7000"
    deposit := "20000"
    description := "A small studio"
    images := []
    location := "Pune"
    amenities := ["wifi"]
    featured := none
    rating := none
    reviews := none
    owner := some "alice"
    ownerName := some "Alice"
    createdAt := 1
    updatedAt := 1 }

/-- Witness for C9: user `"bob"` can neither update nor delete Alice's
room, and both operations report a missing room for an unknown id. -/
theorem updateRoom_deleteRoom_guards_witness :
    (updateRoom (some ⟨"bob", none⟩) 5 ⟨[("r1", aliceRoom)], [], []⟩ "r1" {} =
      (.error "Not authorized to update this room", ⟨[("r1", aliceRoom)], [], []⟩) ∧
     deleteRoom (some ⟨"bob", none⟩) ⟨[("r1", aliceRoom)], [], []⟩ "r1" =
      (.error "Not authorized to delete this room", ⟨[("r1", aliceRoom)], [], []⟩)) ∧
    (updateRoom (some ⟨"bob", none⟩) 5 ⟨[("r1", aliceRoom)], [], []⟩ "r2" {} =
      (.error "Room not found", ⟨[("r1", aliceRoom)], [], []⟩) ∧
     deleteRoom (some ⟨"bob", none⟩) ⟨[("r1", aliceRoom)], [], []⟩ "r2" =
      (.error "Room not found", ⟨[("r1", aliceRoom)], [], []⟩)) := by
  constructor
  · exact (updateRoom_deleteRoom_guards ⟨"bob", none⟩ 5 _ "r1" {}).1 aliceRoom
      (by simp [lookupA]) (by simp [aliceRoom])
  · exact (updateRoom_deleteRoom_guards ⟨"bob", none⟩ 5 _ "r2" {}).2
      (by simp [lookupA])

/-! ## C10: `getFavorites` skips dangling favorites -/

/-- The room-fetching loop of `getFavorites` collects exactly the rooms
whose ids still resolve, in order. -/
theorem favLoop_eq_filterMap (db : DB) (ids : List String) (acc : List RoomDoc) :
    ids.foldl
      (fun rooms id =>
        match getRoomById db id with
        | .ok room => rooms ++ [room]
        | .error _ => rooms) acc
    = acc ++ ids.filterMap (fun i => lookupA i db.rooms) := by
  induction ids generalizing acc with
  | nil => simp
  | cons i ids ih =>
    rw [List.foldl_cons]
    cases h : lookupA i db.rooms with
    | none =>
      have hstep : (match getRoomById db i with
          | .ok room => acc ++ [room]
          | .error _ => acc) = acc := by
        simp [getRoomById, h]
      rw [hstep, ih]
      simp [List.filterMap_cons, h]
    | some room =>
      have hstep : (match getRoomById db i with
          | .ok room => acc ++ [room]
          | .error _ => acc) = acc ++ [room] := by
        simp [getRoomById, h]
      rw [hstep, ih]
      simp [List.filterMap_cons, h]

/-- C10: for an authenticated user, `getFavorites` never fails on a
dangling favorite: it returns exactly the favorited rooms whose documents
still exist, in the order the favorite documents were returned by the
query; ids whose `getRoomById` fails are skipped. -/
theorem getFavorites_skips_dangling (u : User) (db : DB) :
    getFavorites (some u) db =
      .ok (((db.favorites.filter (fun p => p.2.userId = u.uid)).map
              (fun p => p.2.roomId)).filterMap
            (fun i => lookupA i db.rooms)) := by
  simp only [getFavorites]
  rw [favLoop_eq_filterMap]
  simp

/-! ## The write performed by a successful `updateRoomRating` -/

theorem updateA_isSome {α : Type} {k : String} {f : α → α}
    {l l' : List (String × α)} (h : updateA k f l = some l') :
    ∃ v, lookupA k l = some v := by
  induction l generalizing l' with
  | nil => simp [updateA] at h
  | cons p l ih =>
    by_cases hp : p.1 = k
    · exact ⟨p.2, by simp [lookupA, hp]⟩
    · simp only [updateA, if_neg hp, Option.map_eq_some'] at h
      obtain ⟨l'', hl'', rfl⟩ := h
      obtain ⟨v, hv⟩ := ih hl''
      exact ⟨v, by simp [lookupA, hp, hv]⟩

/-- A successful `updateRoomRating` replaces the room's summary fields by
the aggregate of the queried review documents and touches nothing else. -/
theorem updateRoomRating_spec (now : ℕ) (db : DB) (roomId : String)
    (room : RoomDoc) (hroom : lookupA roomId db.rooms = some room) :
    ∃ rooms', updateRoomRating now db roomId = (.ok (), { db with rooms := rooms' }) ∧
      lookupA roomId rooms' =
        some { room with
          rating := some (computeAvg ((queryReviews db roomId).map (·.rating))),
          reviews := some (queryReviews db roomId).length,
          updatedAt := now } := by
  obtain ⟨rooms', hup, hlook, _⟩ := updateA_of_lookupA_some hroom
    (fun r => { r with
      rating := some (toFixed1
        (if 0 < (queryReviews db roomId).length then
          doubleRound (jsSum ((queryReviews db roomId).map (·.rating)) /
            ((queryReviews db roomId).length : ℚ))
        else 0)),
      reviews := some (queryReviews db roomId).length,
      updatedAt := now })
  refine ⟨rooms', ?_, ?_⟩
  · simp only [updateRoomRating, updateRoomRatingCore, hup]
  · rw [hlook]
    simp [computeAvg]

/-- A successful `updateRoomRating` presupposes the room document exists. -/
theorem updateRoomRating_ok_inv {now : ℕ} {db db1 : DB} {roomId : String}
    {u : Unit} (h : updateRoomRating now db roomId = (.ok u, db1)) :
    ∃ room, lookupA roomId db.rooms = some room := by
  simp only [updateRoomRating, updateRoomRatingCore] at h
  cases hup : updateA roomId
      (fun room => { room with
        rating := some (toFixed1
          (if 0 < (queryReviews db roomId).length then
            doubleRound (jsSum ((queryReviews db roomId).map (·.rating)) /
              ((queryReviews db roomId).length : ℚ))
          else 0)),
        reviews := some (queryReviews db roomId).length,
        updatedAt := now }) db.rooms with
  | none => rw [hup] at h; simp at h
  | some rooms' => exact updateA_isSome hup

/-! ## C7: a room with no reviews gets average 0 and count 0 -/

theorem toFixed1_zero : toFixed1 0 = 0 := by
  unfold toFixed1 toFixedInt1
  norm_num

/-- C7: when the reviews query returns no documents, `updateRoomRating`
writes rating `0` and review count `0` onto the room document. -/
theorem updateRoomRating_empty (now : ℕ) (db : DB) (roomId : String)
    (room : RoomDoc) (hroom : lookupA roomId db.rooms = some room)
    (hempty : queryReviews db roomId = []) :
    ∃ db', updateRoomRating now db roomId = (.ok (), db') ∧
      lookupA roomId db'.rooms =
        some { room with rating := some 0, reviews := some 0, updatedAt := now } := by
  obtain ⟨rooms', hres, hlook⟩ := updateRoomRating_spec now db roomId room hroom
  refine ⟨{ db with rooms := rooms' }, hres, ?_⟩
  rw [show ({ db with rooms := rooms' } : DB).rooms = rooms' from rfl, hlook]
  simp [hempty, computeAvg, jsSum, toFixed1_zero]

/-- Witness for C7 at a concrete one-room, zero-review database. -/
theorem updateRoomRating_empty_witness :
    ∃ db', updateRoomRating 5 ⟨[("r1", aliceRoom)], [], []⟩ "r1" = (.ok (), db') ∧
      lookupA "r1" db'.rooms =
        some { aliceRoom with rating := some 0, reviews := some 0, updatedAt := 5 } :=
  updateRoomRating_empty 5 ⟨[("r1", aliceRoom)], [], []⟩ "r1" aliceRoom
    (by simp [lookupA]) (by simp [queryReviews])

/-! ## C6: recomputation is idempotent on the summary fields -/

/-- C6: with no intervening review change, a second `updateRoomRating`
succeeds and writes the same `rating` and `reviews` values the first one
wrote. -/
theorem updateRoomRating_idempotent (now now' : ℕ) (db db1 : DB)
    (roomId : String)
    (h1 : updateRoomRating now db roomId = (.ok (), db1)) :
    ∃ db2, updateRoomRating now' db1 roomId = (.ok (), db2) ∧
      (lookupA roomId db2.rooms).map (fun r => (r.rating, r.reviews)) =
      (lookupA roomId db1.rooms).map (fun r => (r.rating, r.reviews)) := by
  obtain ⟨room, hroom⟩ := updateRoomRating_ok_inv h1
  obtain ⟨rooms', hres, hlook⟩ := updateRoomRating_spec now db roomId room hroom
  have hdb1 : db1 = { db with rooms := rooms' } := congrArg Prod.snd (h1.symm.trans hres)
  subst hdb1
  have hq : queryReviews { db with rooms := rooms' } roomId = queryReviews db roomId := rfl
  obtain ⟨rooms'', hres2, hlook2⟩ := updateRoomRating_spec now' { db with rooms := rooms' }
    roomId _ hlook
  refine ⟨_, hres2, ?_⟩
  change (lookupA roomId rooms'').map _ = (lookupA roomId rooms').map _
  rw [hlook2, hlook]
  simp [hq]

/-- Witness for C6: two successive recomputations on a concrete database
agree on the summary fields. -/
theorem updateRoomRating_idempotent_witness :
    ∃ db2, updateRoomRating 6
        ⟨[("r1", { aliceRoom with rating := some 0, reviews := some 0, updatedAt := 5 })],
         [], []⟩ "r1" = (.ok (), db2) ∧
      (lookupA "r1" db2.rooms).map (fun r => (r.rating, r.reviews)) =
      (lookupA "r1"
        (⟨[("r1", { aliceRoom with rating := some 0, reviews := some 0, updatedAt := 5 })],
          [], []⟩ : DB).rooms).map (fun r => (r.rating, r.reviews)) :=
  updateRoomRating_idempotent 5 6 ⟨[("r1", aliceRoom)], [], []⟩ _ "r1"
    (by simp [updateRoomRating, updateRoomRatingCore, queryReviews, updateA, toFixed1_zero])

/-! ## The write performed by a successful `addReview` -/

/-- The review document written by `addReview` for user `u` on room
`roomId`. -/
def mkReviewDoc (u : User) (roomId : String) (rating : ℚ) (comment : String)
    (now : ℕ) : ReviewDoc :=
  { userId := u.uid
    roomId := roomId
    userName := jsDisplayName u.displayName
    rating := rating
    comment := comment
    createdAt := now
    updatedAt := now }

/-- The database after the `setDoc` of `addReview`: the review document
upserted under the composite key `uid_roomId`. -/
def withReview (db : DB) (u : User) (roomId : String) (rating : ℚ)
    (comment : String) (now : ℕ) : DB :=
  { db with
    reviews := setA (u.uid ++ "_" ++ roomId) (mkReviewDoc u roomId rating comment now) db.reviews }

/-- A successful `addReview` upserts the review document under the
composite key `uid_roomId` and then recomputes the room summary from the
post-write review set. -/
theorem addReview_ok_spec (u : User) (now : ℕ) (db : DB) (roomId : String)
    (rating : ℚ) (comment : String) (room : RoomDoc)
    (hroom : lookupA roomId db.rooms = some room) :
    ∃ rooms',
      addReview (some u) now db roomId rating comment =
        (.ok (), { withReview db u roomId rating comment now with rooms := rooms' }) ∧
      lookupA roomId rooms' =
        some { room with
          rating := some (computeAvg
            ((queryReviews (withReview db u roomId rating comment now) roomId).map (·.rating))),
          reviews := some (queryReviews (withReview db u roomId rating comment now) roomId).length,
          updatedAt := now } := by
  have hroom1 : lookupA roomId (withReview db u roomId rating comment now).rooms = some room :=
    hroom
  obtain ⟨rooms', hres, hlook⟩ := updateRoomRating_spec now
    (withReview db u roomId rating comment now) roomId room hroom1
  refine ⟨rooms', ?_, hlook⟩
  simp only [withReview, mkReviewDoc] at hres ⊢
  simp only [addReview, hres]

/-! ## C3: resubmission by the same reviewer overwrites, count unchanged -/

/-- C3: when the reviewer already has a review document for the room
(the composite key `uid_roomId` is present), a second `addReview` by the
same reviewer overwrites it in place: the reviews collection does not
grow, the room's stored review count equals the count before the call,
the document under the key now carries the new rating, and the recomputed
room rating aggregates the post-overwrite review set (the old rating is
replaced by the new one). -/
theorem addReview_same_reviewer_overwrites (u : User) (now : ℕ) (db : DB)
    (roomId : String) (rating : ℚ) (comment : String) (old : ReviewDoc)
    (room : RoomDoc)
    (hold : lookupA (u.uid ++ "_" ++ roomId) db.reviews = some old)
    (holdRoom : old.roomId = roomId)
    (hroom : lookupA roomId db.rooms = some room) :
    ∃ db', addReview (some u) now db roomId rating comment = (.ok (), db') ∧
      db'.reviews.length = db.reviews.length ∧
      (queryReviews db' roomId).length = (queryReviews db roomId).length ∧
      lookupA (u.uid ++ "_" ++ roomId) db'.reviews =
        some (mkReviewDoc u roomId rating comment now) ∧
      ∃ room', lookupA roomId db'.rooms = some room' ∧
        room'.reviews = some (queryReviews db roomId).length ∧
        room'.rating = some (computeAvg ((queryReviews db' roomId).map (·.rating))) := by
  obtain ⟨rooms', hres, hlook⟩ := addReview_ok_spec u now db roomId rating comment room hroom
  have hqlen : (queryReviews (withReview db u roomId rating comment now) roomId).length =
      (queryReviews db roomId).length := by
    simp only [queryReviews, withReview, List.length_map]
    refine filter_setA_length hold _ _ ?_ ?_
    · simp [holdRoom]
    · simp [mkReviewDoc]
  have hrev : ({ withReview db u roomId rating comment now with rooms := rooms' } : DB).reviews =
      setA (u.uid ++ "_" ++ roomId) (mkReviewDoc u roomId rating comment now) db.reviews := rfl
  have hq' : queryReviews ({ withReview db u roomId rating comment now with rooms := rooms' } : DB)
      roomId = queryReviews (withReview db u roomId rating comment now) roomId := rfl
  refine ⟨_, hres, ?_, ?_, ?_, ?_⟩
  · rw [hrev]
    exact length_setA_of_lookupA_some hold _
  · rw [hq']
    exact hqlen
  · rw [hrev]
    exact lookupA_setA_self _ _ _
  · refine ⟨_, hlook, ?_, ?_⟩
    · simp [hqlen]
    · simp [hq']

/-- A review document by Carol on room `"r1"`, used by witnesses. -/
def carolOldReview : ReviewDoc :=
  { userId := "carol"
    roomId := "r1"
    userName := "Carol"
    rating := 4
    comment := "nice"
    createdAt := 2
    updatedAt := 2 }

/-- Witness for C3: Carol resubmits a rating of 2 over her previous rating
of 4 on a concrete database; the review is overwritten, not appended. -/
theorem addReview_same_reviewer_overwrites_witness :
    ∃ db', addReview (some ⟨"carol", some "Carol"⟩) 7
        ⟨[("r1", aliceRoom)], [("carol_r1", carolOldReview)], []⟩ "r1" 2 "meh" =
        (.ok (), db') ∧
      db'.reviews.length =
        (⟨[("r1", aliceRoom)], [("carol_r1", carolOldReview)], []⟩ : DB).reviews.length ∧
      (queryReviews db' "r1").length =
        (queryReviews ⟨[("r1", aliceRoom)], [("carol_r1", carolOldReview)], []⟩ "r1").length ∧
      lookupA ("carol" ++ "_" ++ "r1") db'.reviews =
        some (mkReviewDoc ⟨"carol", some "Carol"⟩ "r1" 2 "meh" 7) ∧
      ∃ room', lookupA "r1" db'.rooms = some room' ∧
        room'.reviews =
          some (queryReviews ⟨[("r1", aliceRoom)], [("carol_r1", carolOldReview)], []⟩ "r1").length ∧
        room'.rating = some (computeAvg ((queryReviews db' "r1").map (·.rating))) :=
  addReview_same_reviewer_overwrites ⟨"carol", some "Carol"⟩ 7
    ⟨[("r1", aliceRoom)], [("carol_r1", carolOldReview)], []⟩ "r1" 2 "meh"
    carolOldReview aliceRoom (by simp [lookupA]) (by simp [carolOldReview])
    (by simp [lookupA])

/-! ## C8: no range validation of the rating -/

/-- C8: `addReview` accepts every numeric rating value without range
checking or clamping: for any rational `rating` (in particular outside
1–5) the call succeeds, the review document stores exactly the given
value, that value appears in the queried rating list, and the recomputed
room rating aggregates it as-is. -/
theorem addReview_no_range_check (u : User) (now : ℕ) (db : DB)
    (roomId : String) (rating : ℚ) (comment : String) (room : RoomDoc)
    (hroom : lookupA roomId db.rooms = some room) :
    ∃ db', addReview (some u) now db roomId rating comment = (.ok (), db') ∧
      lookupA (u.uid ++ "_" ++ roomId) db'.reviews =
        some (mkReviewDoc u roomId rating comment now) ∧
      (mkReviewDoc u roomId rating comment now).rating = rating ∧
      rating ∈ (queryReviews db' roomId).map (·.rating) ∧
      ∃ room', lookupA roomId db'.rooms = some room' ∧
        room'.rating = some (computeAvg ((queryReviews db' roomId).map (·.rating))) := by
  obtain ⟨rooms', hres, hlook⟩ := addReview_ok_spec u now db roomId rating comment room hroom
  have hrev : ({ withReview db u roomId rating comment now with rooms := rooms' } : DB).reviews =
      setA (u.uid ++ "_" ++ roomId) (mkReviewDoc u roomId rating comment now) db.reviews := rfl
  have hmem : (u.uid ++ "_" ++ roomId, mkReviewDoc u roomId rating comment now) ∈
      setA (u.uid ++ "_" ++ roomId) (mkReviewDoc u roomId rating comment now) db.reviews :=
    mem_of_lookupA (lookupA_setA_self _ _ _)
  refine ⟨_, hres, ?_, rfl, ?_, ⟨_, hlook, rfl⟩⟩
  · rw [hrev]
    exact lookupA_setA_self _ _ _
  · refine List.mem_map.2 ⟨mkReviewDoc u roomId rating comment now, ?_, rfl⟩
    simp only [queryReviews, hrev]
    refine List.mem_map.2
      ⟨(u.uid ++ "_" ++ roomId, mkReviewDoc u roomId rating comment now), ?_, rfl⟩
    refine List.mem_filter.2 ⟨hmem, ?_⟩
    simp [mkReviewDoc]

/-- Witness for C8: Dave submits the out-of-range rating 42; it is stored
and aggregated unchanged. -/
theorem addReview_no_range_check_witness :
    ∃ db', addReview (some ⟨"dave", none⟩) 9 ⟨[("r1", aliceRoom)], [], []⟩ "r1"
        42 "wow" = (.ok (), db') ∧
      lookupA ("dave" ++ "_" ++ "r1") db'.reviews =
        some (mkReviewDoc ⟨"dave", none⟩ "r1" 42 "wow" 9) ∧
      (mkReviewDoc ⟨"dave", none⟩ "r1" 42 "wow" 9).rating = 42 ∧
      (42:ℚ) ∈ (queryReviews db' "r1").map (·.rating) ∧
      ∃ room', lookupA "r1" db'.rooms = some room' ∧
        room'.rating = some (computeAvg ((queryReviews db' "r1").map (·.rating))) :=
  addReview_no_range_check ⟨"dave", none⟩ 9 ⟨[("r1", aliceRoom)], [], []⟩ "r1"
    42 "wow" aliceRoom (by simp [lookupA])

/-! ## Properties of the binary64 rounding model -/

theorem roundHalfEven_abs (x : ℚ) : |(roundHalfEven x : ℚ) - x| ≤ 1/2 := by
  have hfl : (⌊x⌋ : ℚ) ≤ x := Int.floor_le x
  have hfu : x < ⌊x⌋ + 1 := Int.lt_floor_add_one x
  unfold roundHalfEven
  by_cases h1 : x - (⌊x⌋:ℚ) < 1/2
  · rw [if_pos h1, abs_le]
    constructor <;> linarith
  · rw [if_neg h1]
    by_cases h2 : (1:ℚ)/2 < x - (⌊x⌋:ℚ)
    · rw [if_pos h2, abs_le]
      push_cast
      constructor <;> linarith
    · rw [if_neg h2]
      by_cases h3 : ⌊x⌋ % 2 = 0
      · rw [if_pos h3, abs_le]
        constructor <;> linarith
      · rw [if_neg h3, abs_le]
        push_cast
        constructor <;> linarith

theorem roundHalfEven_intCast (n : ℤ) : roundHalfEven (n:ℚ) = n := by
  unfold roundHalfEven
  rw [Int.floor_intCast]
  norm_num

/-- Correctness of the rational binary logarithm: for positive `q`,
`2 ^ qlog2 q ≤ q < 2 ^ (qlog2 q + 1)`. -/
theorem qlog2_correct {q : ℚ} (h0 : 0 < q) :
    (2:ℚ) ^ qlog2 q ≤ q ∧ q < (2:ℚ) ^ (qlog2 q + 1) := by
  have hnum : (0:ℤ) < q.num := Rat.num_pos.2 h0
  have ha0 : q.num.natAbs ≠ 0 := by
    rw [Int.natAbs_ne_zero]
    omega
  have hb0 : q.den ≠ 0 := q.den_nz
  have hbq : (0:ℚ) < ((q.den : ℕ):ℚ) := by
    exact_mod_cast Nat.pos_of_ne_zero hb0
  have hcast : ((q.num.natAbs : ℕ) : ℚ) = (q.num : ℚ) := by
    rw [Int.cast_natAbs]
    exact_mod_cast abs_of_pos hnum
  have hq : q = ((q.num.natAbs : ℕ):ℚ) / ((q.den : ℕ):ℚ) := by
    rw [hcast]
    exact (Rat.num_div_den q).symm
  have hla : ((2:ℚ)) ^ (Nat.log2 q.num.natAbs : ℤ) ≤ ((q.num.natAbs : ℕ):ℚ) := by
    rw [zpow_natCast]
    exact_mod_cast Nat.log2_self_le ha0
  have hla' : ((q.num.natAbs : ℕ):ℚ) < (2:ℚ) ^ ((Nat.log2 q.num.natAbs : ℤ) + 1) := by
    rw [show ((Nat.log2 q.num.natAbs : ℤ) + 1) = ((Nat.log2 q.num.natAbs + 1 : ℕ) : ℤ) by
      push_cast; ring, zpow_natCast]
    exact_mod_cast Nat.lt_log2_self
  have hlb : ((2:ℚ)) ^ (Nat.log2 q.den : ℤ) ≤ ((q.den : ℕ):ℚ) := by
    rw [zpow_natCast]
    exact_mod_cast Nat.log2_self_le hb0
  have hlb' : ((q.den : ℕ):ℚ) < (2:ℚ) ^ ((Nat.log2 q.den : ℤ) + 1) := by
    rw [show ((Nat.log2 q.den : ℤ) + 1) = ((Nat.log2 q.den + 1 : ℕ) : ℤ) by
      push_cast; ring, zpow_natCast]
    exact_mod_cast Nat.lt_log2_self
  have hqlog : qlog2 q =
      if q < (2:ℚ) ^ ((Nat.log2 q.num.natAbs : ℤ) - (Nat.log2 q.den : ℤ)) then
        ((Nat.log2 q.num.natAbs : ℤ) - (Nat.log2 q.den : ℤ)) - 1
      else ((Nat.log2 q.num.natAbs : ℤ) - (Nat.log2 q.den : ℤ)) := rfl
  rw [hqlog]
  clear hqlog hcast ha0 hb0 hnum
  generalize hLA : (Nat.log2 q.num.natAbs : ℤ) = la at hla hla' ⊢
  generalize hLB : (Nat.log2 q.den : ℤ) = lb at hlb hlb' ⊢
  generalize hX : ((q.num.natAbs : ℕ):ℚ) = X at hla hla' hq
  generalize hY : ((q.den : ℕ):ℚ) = Y at hlb hlb' hq hbq
  clear hLA hLB hX hY
  subst hq
  have hupper : X / Y < (2:ℚ) ^ ((la - lb) + 1) := by
    rw [div_lt_iff₀ hbq]
    have e1 : (2:ℚ) ^ (la + 1) = (2:ℚ) ^ ((la - lb) + 1) * (2:ℚ) ^ lb := by
      rw [← zpow_add₀ (by norm_num : (2:ℚ) ≠ 0)]
      congr 1
      ring
    have e2 : (2:ℚ) ^ ((la - lb) + 1) * (2:ℚ) ^ lb ≤ (2:ℚ) ^ ((la - lb) + 1) * Y :=
      mul_le_mul_of_nonneg_left hlb (by positivity)
    calc X < (2:ℚ) ^ (la + 1) := hla'
    _ = (2:ℚ) ^ ((la - lb) + 1) * (2:ℚ) ^ lb := e1
    _ ≤ (2:ℚ) ^ ((la - lb) + 1) * Y := e2
  have hlower : (2:ℚ) ^ ((la - lb) - 1) < X / Y := by
    rw [lt_div_iff₀ hbq]
    have e1 : (2:ℚ) ^ ((la - lb) - 1) * (2:ℚ) ^ (lb + 1) = (2:ℚ) ^ la := by
      rw [← zpow_add₀ (by norm_num : (2:ℚ) ≠ 0)]
      congr 1
      ring
    calc (2:ℚ) ^ ((la - lb) - 1) * Y
        < (2:ℚ) ^ ((la - lb) - 1) * (2:ℚ) ^ (lb + 1) :=
          mul_lt_mul_of_pos_left hlb' (by positivity)
    _ = (2:ℚ) ^ la := e1
    _ ≤ X := hla
  by_cases hc : X / Y < (2:ℚ) ^ (la - lb)
  · rw [if_pos hc]
    refine ⟨hlower.le, ?_⟩
    rw [show (la - lb) - 1 + 1 = la - lb by ring]
    exact hc
  · rw [if_neg hc]
    exact ⟨not_lt.1 hc, hupper⟩

/-- `qlog2` is determined by any valid bracketing. -/
theorem qlog2_eq_of {q : ℚ} {k : ℤ} (h0 : 0 < q)
    (hk : (2:ℚ) ^ k ≤ q) (hk1 : q < (2:ℚ) ^ (k + 1)) : qlog2 q = k := by
  obtain ⟨hl, hu⟩ := qlog2_correct h0
  by_contra hne
  rcases lt_or_gt_of_ne hne with hlt | hgt
  · have h1 : qlog2 q + 1 ≤ k := by omega
    have : (2:ℚ) ^ (qlog2 q + 1) ≤ (2:ℚ) ^ k :=
      zpow_le_zpow_right₀ (by norm_num) h1
    linarith
  · have h1 : k + 1 ≤ qlog2 q := by omega
    have : (2:ℚ) ^ (k + 1) ≤ (2:ℚ) ^ qlog2 q :=
      zpow_le_zpow_right₀ (by norm_num) h1
    linarith

/-- `doubleRound` on a positive rational, with `qlog2` exposed. -/
theorem doubleRound_pos {q : ℚ} (h0 : 0 < q) :
    doubleRound q =
      (roundHalfEven (q * (2:ℚ) ^ (52 - qlog2 q)) : ℚ) * (2:ℚ) ^ (qlog2 q - 52) := by
  unfold doubleRound
  rw [if_neg h0.ne']
  show (if q < 0 then (-1:ℚ) else 1) *
      (roundHalfEven (|q| * (2:ℚ) ^ (-(qlog2 |q| - 52))) : ℚ) * (2:ℚ) ^ (qlog2 |q| - 52) = _
  rw [abs_of_pos h0, if_neg (not_lt.2 h0.le), one_mul,
    show -(qlog2 q - 52) = 52 - qlog2 q by ring]

/-- Evaluation rule for `doubleRound` at a concrete positive rational: a
valid power-of-two bracketing plus the rounded mantissa determine the
result. -/
theorem doubleRound_eval (q : ℚ) (k m : ℤ) (h0 : 0 < q)
    (hk : (2:ℚ) ^ k ≤ q) (hk1 : q < (2:ℚ) ^ (k + 1))
    (hm : roundHalfEven (q * (2:ℚ) ^ (52 - k)) = m) :
    doubleRound q = (m:ℚ) * (2:ℚ) ^ (k - 52) := by
  rw [doubleRound_pos h0, qlog2_eq_of h0 hk hk1, hm]

/-- Relative-error bound of binary64 rounding on `[1, 5]`, the range of
every mean of ratings in 1–5. -/
theorem doubleRound_err {q : ℚ} (h1 : 1 ≤ q) (h5 : q ≤ 5) :
    |doubleRound q - q| ≤ 1 / 2^51 := by
  have h0 : (0:ℚ) < q := by linarith
  obtain ⟨hl, hu⟩ := qlog2_correct h0
  have hk2 : qlog2 q ≤ 2 := by
    by_contra h
    push_neg at h
    have h3 : (2:ℚ) ^ (3:ℤ) ≤ (2:ℚ) ^ qlog2 q :=
      zpow_le_zpow_right₀ (by norm_num) (by omega)
    have h8 : (2:ℚ) ^ (3:ℤ) = 8 := by norm_num
    linarith
  rw [doubleRound_pos h0]
  have hrhe := roundHalfEven_abs (q * (2:ℚ) ^ (52 - qlog2 q))
  have hpow : (0:ℚ) < (2:ℚ) ^ (qlog2 q - 52) := by positivity
  have hqq : q * (2:ℚ) ^ (52 - qlog2 q) * (2:ℚ) ^ (qlog2 q - 52) = q := by
    rw [mul_assoc, ← zpow_add₀ (by norm_num : (2:ℚ) ≠ 0),
      show (52 - qlog2 q) + (qlog2 q - 52) = 0 by ring, zpow_zero, mul_one]
  have key : (roundHalfEven (q * (2:ℚ) ^ (52 - qlog2 q)) : ℚ) * (2:ℚ) ^ (qlog2 q - 52) - q
      = ((roundHalfEven (q * (2:ℚ) ^ (52 - qlog2 q)) : ℚ) - q * (2:ℚ) ^ (52 - qlog2 q)) *
        (2:ℚ) ^ (qlog2 q - 52) := by
    rw [sub_mul, hqq]
  rw [key, abs_mul, abs_of_pos hpow]
  have hple : (2:ℚ) ^ (qlog2 q - 52) ≤ (2:ℚ) ^ (-(50:ℤ)) :=
    zpow_le_zpow_right₀ (by norm_num) (by omega)
  calc |(roundHalfEven (q * (2:ℚ) ^ (52 - qlog2 q)) : ℚ) - q * (2:ℚ) ^ (52 - qlog2 q)| *
        (2:ℚ) ^ (qlog2 q - 52)
      ≤ (1/2) * (2:ℚ) ^ (-(50:ℤ)) := mul_le_mul hrhe hple hpow.le (by norm_num)
  _ = 1 / 2^51 := by norm_num

/-- Binary64 rounding is exact on naturals up to `2 ^ 52`. -/
theorem doubleRound_natCast (n : ℕ) (hn : n ≤ 2^52) : doubleRound (n:ℚ) = n := by
  rcases Nat.eq_zero_or_pos n with h | hpos
  · subst h
    simp [doubleRound]
  have h0 : (0:ℚ) < n := by exact_mod_cast hpos
  obtain ⟨hl, hu⟩ := qlog2_correct h0
  have hn' : (n:ℚ) ≤ (2:ℚ) ^ (52:ℤ) := by
    rw [show ((52:ℤ)) = ((52:ℕ):ℤ) by norm_num, zpow_natCast]
    exact_mod_cast hn
  have hk52 : qlog2 (n:ℚ) ≤ 52 := by
    by_contra h
    push_neg at h
    have h1 : (2:ℚ) ^ (53:ℤ) ≤ (2:ℚ) ^ qlog2 (n:ℚ) :=
      zpow_le_zpow_right₀ (by norm_num) (by omega)
    have h2 : (2:ℚ) ^ (52:ℤ) < (2:ℚ) ^ (53:ℤ) :=
      zpow_lt_zpow_right₀ (by norm_num) (by omega)
    linarith
  set d : ℕ := (52 - qlog2 (n:ℚ)).toNat with hdd
  have hd : (d:ℤ) = 52 - qlog2 (n:ℚ) := Int.toNat_of_nonneg (by omega)
  have hx : (n:ℚ) * (2:ℚ) ^ ((52:ℤ) - qlog2 (n:ℚ)) = ((n * 2^d : ℕ):ℚ) := by
    rw [← hd, zpow_natCast]
    push_cast
    ring
  have hr : roundHalfEven ((n:ℚ) * (2:ℚ) ^ ((52:ℤ) - qlog2 (n:ℚ))) = ((n * 2^d : ℕ):ℤ) := by
    rw [hx, show ((n * 2^d : ℕ):ℚ) = (((n * 2^d : ℕ):ℤ):ℚ) by push_cast; ring]
    exact roundHalfEven_intCast _
  rw [doubleRound_pos h0, hr,
    show ((((n * 2^d : ℕ):ℤ)):ℚ) = (n:ℚ) * (2:ℚ) ^ (d:ℤ) by
      rw [zpow_natCast]; push_cast; ring,
    mul_assoc, ← zpow_add₀ (by norm_num : (2:ℚ) ≠ 0), hd,
    show (52 - qlog2 (n:ℚ)) + (qlog2 (n:ℚ) - 52) = 0 by ring, zpow_zero, mul_one]

/-- The JS running sum is exact on natural ratings whose total stays below
`2 ^ 52`. -/
theorem jsSum_go (ns : List ℕ) : ∀ a : ℕ, a + ns.sum ≤ 2^52 →
    (ns.map (fun (k : ℕ) => (k:ℚ))).foldl (fun acc r => doubleRound (acc + r)) (a:ℚ) =
      ((a + ns.sum : ℕ):ℚ) := by
  induction ns with
  | nil => intro a _; simp
  | cons k ns ih =>
    intro a hle
    rw [List.map_cons, List.foldl_cons]
    have h1 : (a:ℚ) + (k:ℚ) = ((a + k : ℕ):ℚ) := by push_cast; ring
    have h2 : a + k ≤ 2^52 := by
      have := ns.sum.zero_le
      simp only [List.sum_cons] at hle
      omega
    rw [h1, doubleRound_natCast _ h2, ih (a + k) (by simp only [List.sum_cons] at hle ⊢; omega)]
    congr 1
    simp only [List.sum_cons]
    omega

theorem jsSum_intValued (rs : List ℚ) (ns : List ℕ)
    (h : rs = ns.map (fun (k : ℕ) => (k:ℚ))) (hsum : ns.sum ≤ 2^52) :
    jsSum rs = (ns.sum : ℚ) := by
  subst h
  have := jsSum_go ns 0 (by simpa using hsum)
  simpa [jsSum] using this

/-- Rounding the double `q'` to one decimal by round-half-up lands within
half a tenth of the exact quotient `s / c`, provided `q'` approximates
`s / c` to within `2 ^ (-51)` and `c ≤ 2 ^ 40`: the accumulated error can
never bridge the gap between `10 * s / c` and a neighbouring
half-integer. -/
theorem tenth_near (s c : ℕ) (hc : 0 < c) (hcb : c ≤ 2^40) (q' : ℚ)
    (herr : |q' - (s:ℚ)/c| ≤ 1/2^51) :
    |toFixed1 q' - (s:ℚ)/c| ≤ 1/20 := by
  have hcq : (0:ℚ) < (c:ℚ) := by exact_mod_cast hc
  have hcbq : ((c:ℕ):ℚ) ≤ 2^40 := by exact_mod_cast hcb
  set n0 : ℤ := toFixedInt1 q' with hn0
  have hfl : (n0:ℚ) ≤ 10 * q' + 1/2 := Int.floor_le _
  have hfu : 10 * q' + 1/2 < n0 + 1 := Int.lt_floor_add_one _
  have hq10 : |10 * q' - (n0:ℚ)| ≤ 1/2 := by
    rw [abs_le]
    constructor <;> linarith
  have herr10 : |10 * ((s:ℚ)/c) - 10 * q'| ≤ 10/2^51 := by
    rw [show 10 * ((s:ℚ)/c) - 10 * q' = 10 * ((s:ℚ)/c - q') by ring, abs_mul]
    rw [abs_sub_comm] at herr
    calc |(10:ℚ)| * |(s:ℚ)/c - q'| = 10 * |(s:ℚ)/c - q'| := by norm_num
    _ ≤ 10 * (1/2^51) := by linarith
    _ = 10/2^51 := by ring
  have habs : |10 * ((s:ℚ)/c) - (n0:ℚ)| ≤ 1/2 + 10/2^51 := by
    calc |10 * ((s:ℚ)/c) - (n0:ℚ)|
        = |(10 * ((s:ℚ)/c) - 10 * q') + (10 * q' - (n0:ℚ))| := by ring_nf
    _ ≤ |10 * ((s:ℚ)/c) - 10 * q'| + |10 * q' - (n0:ℚ)| := abs_add _ _
    _ ≤ 10/2^51 + 1/2 := add_le_add herr10 hq10
    _ = 1/2 + 10/2^51 := by ring
  set A : ℤ := 10 * (s:ℤ) - n0 * (c:ℤ) with hA
  have keyQ : ((A:ℤ):ℚ) = (10 * ((s:ℚ)/c) - (n0:ℚ)) * c := by
    rw [hA]
    push_cast
    field_simp
    ring
  have hAc : |((A:ℤ):ℚ)| = |10 * ((s:ℚ)/c) - (n0:ℚ)| * c := by
    rw [keyQ, abs_mul, abs_of_pos hcq]
  have hsmall : (20:ℚ) * c / 2^51 < 1 := by
    rw [div_lt_one (by positivity)]
    calc (20:ℚ) * c ≤ 20 * 2^40 := by linarith
    _ < 2^51 := by norm_num
  have h2A : (2:ℚ) * |((A:ℤ):ℚ)| < c + 1 := by
    calc (2:ℚ) * |((A:ℤ):ℚ)| ≤ 2 * ((1/2 + 10/2^51) * c) := by
          rw [hAc]
          have h3 := mul_le_mul_of_nonneg_right habs hcq.le
          linarith
    _ = c + 20 * c / 2^51 := by ring
    _ < c + 1 := by linarith
  have hint : 2 * |A| ≤ (c:ℤ) := by
    have h1 : ((2 * |A| : ℤ):ℚ) < (((c:ℤ) + 1 : ℤ):ℚ) := by
      push_cast
      push_cast at h2A
      linarith
    have h2 : (2 * |A| : ℤ) < (c:ℤ) + 1 := by exact_mod_cast h1
    omega
  have hfinal : |10 * ((s:ℚ)/c) - (n0:ℚ)| ≤ 1/2 := by
    have hle : (2:ℚ) * (|10 * ((s:ℚ)/c) - (n0:ℚ)| * c) ≤ c := by
      rw [← hAc]
      have h3 : ((2 * |A| : ℤ):ℚ) ≤ (((c:ℤ)):ℚ) := by exact_mod_cast hint
      push_cast at h3
      linarith
    by_contra hB
    push_neg at hB
    have habs0 : (0:ℚ) ≤ |10 * ((s:ℚ)/c) - (n0:ℚ)| := abs_nonneg _
    nlinarith
  have hgoal : |toFixed1 q' - (s:ℚ)/c| = |10 * ((s:ℚ)/c) - (n0:ℚ)| / 10 := by
    rw [toFixed1, ← hn0, abs_sub_comm,
      show (s:ℚ)/c - (n0:ℚ)/10 = (10 * ((s:ℚ)/c) - (n0:ℚ))/10 by ring,
      abs_div]
    norm_num
  rw [hgoal]
  linarith

/-! ## The aggregate on integer ratings -/

theorem computeAvg_def (rs : List ℚ) :
    computeAvg rs =
      toFixed1 (if 0 < rs.length then doubleRound (jsSum rs / (rs.length:ℚ)) else 0) := rfl

/-- On integer ratings with a sum below `2 ^ 52`, the stored average is
round-half-up (`toFixed1`) applied to the binary64 value (`doubleRound`)
of the exact quotient: the running sum is exact, and only the final
division is subject to rounding. -/
theorem computeAvg_int (ns : List ℕ) (hne : ns ≠ []) (hsum : ns.sum ≤ 2^52) :
    computeAvg (ns.map (fun (k : ℕ) => (k:ℚ))) =
      toFixed1 (doubleRound ((ns.sum : ℚ) / (ns.length : ℚ))) := by
  rw [computeAvg_def, jsSum_intValued _ ns rfl hsum, List.length_map,
    if_pos (List.length_pos.2 hne)]

theorem exists_natList {rs : List ℚ}
    (h : ∀ r ∈ rs, ∃ k : ℕ, 1 ≤ k ∧ k ≤ 5 ∧ r = (k:ℚ)) :
    ∃ ns : List ℕ, rs = ns.map (fun (k : ℕ) => (k:ℚ)) ∧ ∀ k ∈ ns, 1 ≤ k ∧ k ≤ 5 := by
  induction rs with
  | nil => exact ⟨[], rfl, by simp⟩
  | cons r rs ih =>
    obtain ⟨k, h1, h5, hr⟩ := h r (List.mem_cons_self _ _)
    obtain ⟨ns, hns, hbound⟩ := ih (fun x hx => h x (List.mem_cons_of_mem _ hx))
    refine ⟨k :: ns, by simp [hr, hns], ?_⟩
    intro j hj
    rcases List.mem_cons.1 hj with hj | hj
    · subst hj; exact ⟨h1, h5⟩
    · exact hbound j hj

/-- On at most `2 ^ 40` integer ratings in 1–5, the stored average is a
one-decimal value within half a tenth of the exact mean. -/
theorem computeAvg_int_near (rs : List ℚ) (ns : List ℕ)
    (h : rs = ns.map (fun (k : ℕ) => (k:ℚ))) (hb : ∀ k ∈ ns, 1 ≤ k ∧ k ≤ 5)
    (hne : ns ≠ []) (hlen : ns.length ≤ 2^40) :
    (∃ m : ℤ, computeAvg rs = (m:ℚ)/10) ∧
      |computeAvg rs - rs.sum / (rs.length : ℚ)| ≤ 1/20 := by
  have hlpos : 0 < ns.length := List.length_pos.2 hne
  have hlq : (0:ℚ) < (ns.length:ℚ) := by exact_mod_cast hlpos
  have hsum_le : ns.sum ≤ 5 * ns.length := by
    have := List.sum_le_card_nsmul ns 5 (fun x hx => (hb x hx).2)
    simpa [smul_eq_mul, Nat.mul_comm] using this
  have hsum_ge : ns.length ≤ ns.sum := by
    have := List.card_nsmul_le_sum ns 1 (fun x hx => (hb x hx).1)
    simpa [smul_eq_mul] using this
  have hsum52 : ns.sum ≤ 2^52 := by
    calc ns.sum ≤ 5 * ns.length := hsum_le
    _ ≤ 5 * 2^40 := by omega
    _ ≤ 2^52 := by norm_num
  have h1q : (1:ℚ) ≤ (ns.sum : ℚ) / (ns.length : ℚ) := by
    rw [le_div_iff₀ hlq, one_mul]
    exact_mod_cast hsum_ge
  have h5q : (ns.sum : ℚ) / (ns.length : ℚ) ≤ 5 := by
    rw [div_le_iff₀ hlq]
    exact_mod_cast hsum_le
  have herr := doubleRound_err h1q h5q
  have hca : computeAvg rs = toFixed1 (doubleRound ((ns.sum : ℚ) / (ns.length : ℚ))) := by
    rw [h]
    exact computeAvg_int ns hne hsum52
  have hnear := tenth_near ns.sum ns.length hlpos hlen
    (doubleRound ((ns.sum : ℚ) / (ns.length : ℚ))) herr
  have hsum_cast : rs.sum = ((ns.sum : ℕ):ℚ) := by
    rw [h]
    exact (Nat.cast_list_sum ns).symm
  have hlen_cast : (rs.length : ℚ) = ((ns.length : ℕ):ℚ) := by
    rw [h, List.length_map]
  constructor
  · exact ⟨toFixedInt1 (doubleRound ((ns.sum : ℚ) / (ns.length : ℚ))), by rw [hca]; rfl⟩
  · rw [hca, hsum_cast, hlen_cast]
    exact hnear

/-! ## C2 (amended): the written average is round-half-up of the binary64
quotient, not of the exact quotient -/

/-- C2 (amended): for a non-empty review set whose ratings are naturals
with sum below `2 ^ 52`, the average written by `updateRoomRating` equals
round-half-up (the `toFixed(1)` integer choice) applied to the IEEE-754
binary64 value nearest the exact quotient `sum / count` — rather than to
the exact quotient itself.  When the exact quotient lies strictly between
two representable values on opposite sides of a decimal midpoint, the
written value therefore follows the double, not the exact round-half-up
(see the counterexample). -/
theorem updateRoomRating_halfUp_of_double (now : ℕ) (db : DB) (roomId : String)
    (room : RoomDoc) (ns : List ℕ)
    (hroom : lookupA roomId db.rooms = some room)
    (hns : (queryReviews db roomId).map (·.rating) = ns.map (fun (k : ℕ) => (k:ℚ)))
    (hne : ns ≠ []) (hsum : ns.sum ≤ 2^52) :
    ∃ db', updateRoomRating now db roomId = (.ok (), db') ∧
      ∃ room', lookupA roomId db'.rooms = some room' ∧
        room'.rating = some (toFixed1 (doubleRound ((ns.sum : ℚ) / (ns.length : ℚ)))) ∧
        room'.reviews = some ns.length := by
  obtain ⟨rooms', hres, hlook⟩ := updateRoomRating_spec now db roomId room hroom
  refine ⟨_, hres, _, hlook, ?_, ?_⟩
  · simp only [hns, computeAvg_int ns hne hsum]
  · have hlen : (queryReviews db roomId).length = ns.length := by
      have h1 := congrArg List.length hns
      simpa using h1
    simp [hlen]

/-- Witness for the amended C2 at a concrete database holding one review
with rating 4. -/
theorem updateRoomRating_halfUp_of_double_witness :
    ∃ db', updateRoomRating 8 ⟨[("r1", aliceRoom)], [("carol_r1", carolOldReview)], []⟩
        "r1" = (.ok (), db') ∧
      ∃ room', lookupA "r1" db'.rooms = some room' ∧
        room'.rating = some (toFixed1 (doubleRound ((([4].sum : ℕ) : ℚ) / (([4].length : ℕ) : ℚ)))) ∧
        room'.reviews = some [4].length :=
  updateRoomRating_halfUp_of_double 8 ⟨[("r1", aliceRoom)], [("carol_r1", carolOldReview)], []⟩
    "r1" aliceRoom [4] (by simp [lookupA])
    (by simp [queryReviews, carolOldReview])
    (by simp) (by norm_num)

/-! ## Concrete binary64 evaluations -/

theorem roundHalfEven_eq_floor {x : ℚ} (h : x - (⌊x⌋:ℚ) < 1/2) :
    roundHalfEven x = ⌊x⌋ := by
  show (if x - (⌊x⌋:ℚ) < 1/2 then ⌊x⌋
    else if 1/2 < x - (⌊x⌋:ℚ) then ⌊x⌋ + 1
    else if ⌊x⌋ % 2 = 0 then ⌊x⌋ else ⌊x⌋ + 1) = ⌊x⌋
  rw [if_pos h]

/-- The binary64 value of 29/20 = 1.45 lies strictly below 1.45: the
double is 6530219459687219 / 2^52 = 1.44999…95. -/
theorem doubleRound_29_20 :
    doubleRound ((29:ℚ)/20) = 6530219459687219 * (2:ℚ)^((0:ℤ) - 52) := by
  have hf : (⌊(29:ℚ)/20 * (2:ℚ)^(52 - (0:ℤ))⌋ : ℤ) = 6530219459687219 := by
    rw [Int.floor_eq_iff]
    constructor
    · norm_num
    · norm_num
  refine doubleRound_eval _ 0 6530219459687219 (by norm_num) (by norm_num) (by norm_num) ?_
  refine (roundHalfEven_eq_floor ?_).trans hf
  rw [hf]
  norm_num

/-- `toFixed(1)` on the double of 29/20 rounds down to 1.4, although
round-half-up on the exact value 1.45 gives 1.5. -/
theorem toFixed1_double_29_20 :
    toFixed1 (6530219459687219 * (2:ℚ)^((0:ℤ) - 52)) = 7/5 := by
  have h14 : (⌊(10:ℚ) * (6530219459687219 * (2:ℚ)^((0:ℤ) - 52)) + 1/2⌋ : ℤ) = 14 := by
    rw [Int.floor_eq_iff]
    constructor
    · norm_num
    · norm_num
  unfold toFixed1 toFixedInt1
  rw [h14]
  norm_num

/-! ## C2 (counterexample): a review set where the written average is not
round-half-up of the exact quotient -/

/-- A concrete review document for room `"r1"`. -/
def mkRev (uid : String) (r : ℚ) : String × ReviewDoc :=
  (uid ++ "_r1",
    { userId := uid
      roomId := "r1"
      userName := uid
      rating := r
      comment := ""
      createdAt := 0
      updatedAt := 0 })

/-- Twenty reviews for room `"r1"`: eleven ratings of 1 and nine ratings
of 2, so the exact mean is 29/20 = 1.45. -/
def c2Reviews : List (String × ReviewDoc) :=
  [mkRev "u01" 1, mkRev "u02" 1, mkRev "u03" 1, mkRev "u04" 1, mkRev "u05" 1,
   mkRev "u06" 1, mkRev "u07" 1, mkRev "u08" 1, mkRev "u09" 1, mkRev "u10" 1,
   mkRev "u11" 1, mkRev "u12" 2, mkRev "u13" 2, mkRev "u14" 2, mkRev "u15" 2,
   mkRev "u16" 2, mkRev "u17" 2, mkRev "u18" 2, mkRev "u19" 2, mkRev "u20" 2]

/-- The database holding those twenty reviews and one room. -/
def c2db : DB := ⟨[("r1", aliceRoom)], c2Reviews, []⟩

theorem c2_query :
    (queryReviews c2db "r1").map (·.rating) =
      ([1,1,1,1,1,1,1,1,1,1,1,2,2,2,2,2,2,2,2,2] : List ℕ).map (fun (k : ℕ) => (k:ℚ)) := by
  simp [queryReviews, c2db, c2Reviews, mkRev]

/-- C2 is false as stated: on the twenty-review set `c2db` (eleven 1s,
nine 2s) the exact quotient is 29/20 = 1.45, whose round-half-up to one
decimal is 1.5; but `updateRoomRating` writes 1.4, because the binary64
value of 29/20 lies strictly below 1.45 and `toFixed(1)` rounds the
double, not the exact quotient. -/
theorem updateRoomRating_not_halfUp_counterexample :
    ((queryReviews c2db "r1").map (·.rating)).sum = 29 ∧
    (queryReviews c2db "r1").length = 20 ∧
    (⌊(10:ℚ) * (29/20) + 1/2⌋ : ℚ) / 10 = 3/2 ∧
    ∃ db', updateRoomRating 3 c2db "r1" = (.ok (), db') ∧
      ∃ room', lookupA "r1" db'.rooms = some room' ∧
        room'.rating = some (7/5) ∧ (7/5 : ℚ) ≠ 3/2 := by
  refine ⟨?_, ?_, ?_, ?_⟩
  · rw [c2_query]
    norm_num
  · simp [queryReviews, c2db, c2Reviews, mkRev]
  · norm_num
  · obtain ⟨rooms', hres, hlook⟩ := updateRoomRating_spec 3 c2db "r1" aliceRoom
      (by simp [c2db, lookupA])
    have hval : computeAvg ((queryReviews c2db "r1").map (·.rating)) = 7/5 := by
      rw [c2_query, computeAvg_int _ (by simp) (by norm_num)]
      have hs : ((([1,1,1,1,1,1,1,1,1,1,1,2,2,2,2,2,2,2,2,2] : List ℕ).sum : ℕ) : ℚ) = 29 := by
        norm_num
      have hl : ((([1,1,1,1,1,1,1,1,1,1,1,2,2,2,2,2,2,2,2,2] : List ℕ).length : ℕ) : ℚ) = 20 := by
        norm_num
      rw [hs, hl, doubleRound_29_20, toFixed1_double_29_20]
    refine ⟨_, hres, _, hlook, ?_, by norm_num⟩
    simp [hval]

/-! ## Iterated review submission -/

/-- Submitting a list of reviews for one room through `addReview`, each
entry giving the authenticated reviewer, the rating and the comment. -/
def submitAll (now : ℕ) (roomId : String) : List (User × ℚ × String) → DB → DB
  | [], db => db
  | s :: rest, db =>
    submitAll now roomId rest (addReview (some s.1) now db roomId s.2.1 s.2.2).2

theorem strAppend_cancel {a b c : String} (h : a ++ c = b ++ c) : a = b := by
  have hd : a.data ++ c.data = b.data ++ c.data := by
    rw [← String.data_append, ← String.data_append, h]
  exact String.ext (List.append_cancel_right hd)

theorem reviewKey_inj {u v roomId : String} (h : u ++ "_" ++ roomId = v ++ "_" ++ roomId) :
    u = v := by
  have h1 : u ++ "_" = v ++ "_" := strAppend_cancel h
  exact strAppend_cancel h1

theorem lookupA_append_none {α : Type} {k : String} {l1 l2 : List (String × α)}
    (h1 : lookupA k l1 = none) (h2 : lookupA k l2 = none) :
    lookupA k (l1 ++ l2) = none := by
  induction l1 with
  | nil => simpa using h2
  | cons p l1 ih =>
    by_cases hp : p.1 = k
    · simp [lookupA, hp] at h1
    · simp [lookupA, hp] at h1 ⊢
      exact ih h1

/-- Adding a review under a fresh key appends the document, so the
queried review list for the room grows by exactly that document. -/
theorem queryReviews_withReview (db : DB) (u : User) (roomId : String)
    (rating : ℚ) (comment : String) (now : ℕ)
    (hkey : lookupA (u.uid ++ "_" ++ roomId) db.reviews = none) :
    queryReviews (withReview db u roomId rating comment now) roomId =
      queryReviews db roomId ++ [mkReviewDoc u roomId rating comment now] := by
  have h1 : (withReview db u roomId rating comment now).reviews =
      db.reviews ++ [(u.uid ++ "_" ++ roomId, mkReviewDoc u roomId rating comment now)] := by
    show setA (u.uid ++ "_" ++ roomId) (mkReviewDoc u roomId rating comment now) db.reviews = _
    exact setA_of_lookupA_none hkey _
  unfold queryReviews
  rw [h1, List.filter_append, List.map_append]
  congr 1
  simp [mkReviewDoc]

/-- Characterisation of `submitAll`: when the room exists, every reviewer
in the batch is distinct and none of them has an existing review document
for the room, the batch appends its review documents in order, and (for a
non-empty batch) the final recomputation stores the aggregate of the
previous review set extended by the batch ratings. -/
theorem submitAll_spec (now : ℕ) (roomId : String) :
    ∀ (subs : List (User × ℚ × String)) (db : DB) (room : RoomDoc),
    lookupA roomId db.rooms = some room →
    (∀ s ∈ subs, lookupA (s.1.uid ++ "_" ++ roomId) db.reviews = none) →
    (subs.map (fun s => s.1.uid)).Nodup →
    (submitAll now roomId subs db).reviews =
      db.reviews ++ subs.map
        (fun s => (s.1.uid ++ "_" ++ roomId, mkReviewDoc s.1 roomId s.2.1 s.2.2 now)) ∧
    (subs = [] → submitAll now roomId subs db = db) ∧
    (subs ≠ [] → lookupA roomId (submitAll now roomId subs db).rooms =
      some { room with
        rating := some (computeAvg
          (((queryReviews db roomId).map (·.rating)) ++ subs.map (fun s => s.2.1))),
        reviews := some ((queryReviews db roomId).length + subs.length),
        updatedAt := now }) := by
  intro subs
  induction subs with
  | nil =>
    intro db room hroom _ _
    exact ⟨by simp [submitAll], fun _ => rfl, fun h => absurd rfl h⟩
  | cons s rest ih =>
    intro db room hroom hfresh hnodup
    obtain ⟨rooms', hres, hlook⟩ := addReview_ok_spec s.1 now db roomId s.2.1 s.2.2 room hroom
    have hkey : lookupA (s.1.uid ++ "_" ++ roomId) db.reviews = none :=
      hfresh s (List.mem_cons_self _ _)
    have hstep : submitAll now roomId (s :: rest) db =
        submitAll now roomId rest
          ({ withReview db s.1 roomId s.2.1 s.2.2 now with rooms := rooms' } : DB) := by
      show submitAll now roomId rest (addReview (some s.1) now db roomId s.2.1 s.2.2).2 = _
      rw [hres]
    have hrev1 : ({ withReview db s.1 roomId s.2.1 s.2.2 now with rooms := rooms' } : DB).reviews =
        db.reviews ++ [(s.1.uid ++ "_" ++ roomId, mkReviewDoc s.1 roomId s.2.1 s.2.2 now)] := by
      show setA (s.1.uid ++ "_" ++ roomId) (mkReviewDoc s.1 roomId s.2.1 s.2.2 now) db.reviews = _
      exact setA_of_lookupA_none hkey _
    have hqw : queryReviews (withReview db s.1 roomId s.2.1 s.2.2 now) roomId =
        queryReviews db roomId ++ [mkReviewDoc s.1 roomId s.2.1 s.2.2 now] :=
      queryReviews_withReview db s.1 roomId s.2.1 s.2.2 now hkey
    have hq1 : queryReviews ({ withReview db s.1 roomId s.2.1 s.2.2 now with rooms := rooms' } : DB)
        roomId = queryReviews db roomId ++ [mkReviewDoc s.1 roomId s.2.1 s.2.2 now] := hqw
    have hroom1 : lookupA roomId
        ({ withReview db s.1 roomId s.2.1 s.2.2 now with rooms := rooms' } : DB).rooms =
        some { room with
          rating := some (computeAvg
            ((queryReviews (withReview db s.1 roomId s.2.1 s.2.2 now) roomId).map (·.rating))),
          reviews := some (queryReviews (withReview db s.1 roomId s.2.1 s.2.2 now) roomId).length,
          updatedAt := now } := hlook
    have hnmem : s.1.uid ∉ rest.map (fun t => t.1.uid) := by
      have := hnodup
      rw [List.map_cons, List.nodup_cons] at this
      exact this.1
    have hfresh1 : ∀ t ∈ rest, lookupA (t.1.uid ++ "_" ++ roomId)
        ({ withReview db s.1 roomId s.2.1 s.2.2 now with rooms := rooms' } : DB).reviews = none := by
      intro t ht
      rw [hrev1]
      refine lookupA_append_none (hfresh t (List.mem_cons_of_mem _ ht)) ?_
      have hne : s.1.uid ++ "_" ++ roomId ≠ t.1.uid ++ "_" ++ roomId := by
        intro he
        exact hnmem (by
          rw [reviewKey_inj he]
          exact List.mem_map.2 ⟨t, ht, rfl⟩)
      simp [lookupA, hne]
    have hnodup1 : (rest.map (fun t => t.1.uid)).Nodup := by
      have := hnodup
      rw [List.map_cons, List.nodup_cons] at this
      exact this.2
    obtain ⟨ihrev, ihnil, ihlook⟩ := ih
      ({ withReview db s.1 roomId s.2.1 s.2.2 now with rooms := rooms' } : DB) _ hroom1 hfresh1
      hnodup1
    refine ⟨?_, ?_, ?_⟩
    · rw [hstep, ihrev, hrev1]
      simp [List.append_assoc]
    · intro h
      simp at h
    · intro _
      rw [hstep]
      by_cases hr : rest = []
      · subst hr
        have he : submitAll now roomId []
            ({ withReview db s.1 roomId s.2.1 s.2.2 now with rooms := rooms' } : DB) =
            ({ withReview db s.1 roomId s.2.1 s.2.2 now with rooms := rooms' } : DB) := rfl
        rw [he, hroom1, hqw]
        simp [mkReviewDoc]
      · rw [ihlook hr]
        rw [hq1]
        congr 2
        · rw [List.map_append]
          simp [mkReviewDoc, List.append_assoc]
        · simp
          omega

/-! ## C1 (amended): distinct reviewers, count exact, mean correct to
within half a tenth -/

set_option maxHeartbeats 1600000 in
/-- C1 (amended): after `n` distinct authenticated reviewers (`n ≥ 1`,
realistically bounded by `2 ^ 40`) submit integer ratings in 1–5 through
`addReview` for a room with no prior reviews, the room document's
`reviews` field equals `n`, and its `rating` field is a one-decimal value
within half a tenth (0.05) of the exact mean of the `n` ratings.  The
mean is rounded to the nearest tenth except that an exact midpoint may
round to either neighbour, following the binary64 value of the quotient
(see the counterexample). -/
theorem submitAll_count_and_mean (now : ℕ) (db : DB) (roomId : String)
    (room : RoomDoc) (subs : List (User × ℚ × String))
    (hroom : lookupA roomId db.rooms = some room)
    (hclean : queryReviews db roomId = [])
    (hfresh : ∀ s ∈ subs, lookupA (s.1.uid ++ "_" ++ roomId) db.reviews = none)
    (hnodup : (subs.map (fun s => s.1.uid)).Nodup)
    (hne : subs ≠ [])
    (hlen : subs.length ≤ 2^40)
    (hint : ∀ s ∈ subs, ∃ k : ℕ, 1 ≤ k ∧ k ≤ 5 ∧ s.2.1 = (k:ℚ)) :
    ∃ room', lookupA roomId (submitAll now roomId subs db).rooms = some room' ∧
      room'.reviews = some subs.length ∧
      ∃ x : ℚ, room'.rating = some x ∧ (∃ m : ℤ, x = (m:ℚ)/10) ∧
        |x - (subs.map (fun s => s.2.1)).sum / (subs.length : ℚ)| ≤ 1/20 := by
  obtain ⟨_, _, hlook⟩ := submitAll_spec now roomId subs db room hroom hfresh hnodup
  have h2 := hlook hne
  rw [hclean] at h2
  simp only [List.map_nil, List.nil_append, List.length_nil, Nat.zero_add] at h2
  refine ⟨_, h2, rfl, ?_⟩
  have hint' : ∀ r ∈ subs.map (fun s => s.2.1), ∃ k : ℕ, 1 ≤ k ∧ k ≤ 5 ∧ r = (k:ℚ) := by
    intro r hr
    obtain ⟨s, hs, rfl⟩ := List.mem_map.1 hr
    exact hint s hs
  obtain ⟨ns, hns, hb⟩ := exists_natList hint'
  have hnsne : ns ≠ [] := by
    intro h
    subst h
    simp at hns
    exact hne hns
  have hlen' : ns.length ≤ 2^40 := by
    have h1 : ns.length = subs.length := by
      have := congrArg List.length hns
      simpa using this.symm
    omega
  obtain ⟨⟨m, hm⟩, hnear⟩ := computeAvg_int_near (subs.map (fun s => s.2.1)) ns hns hb
    hnsne hlen'
  refine ⟨computeAvg (subs.map (fun s => s.2.1)), rfl, ⟨m, hm⟩, ?_⟩
  simpa [List.length_map] using hnear

/-! ## C1 (counterexample): 20 reviewers, ratings 1..5, exact mean on a
midpoint, stored rating rounds down -/

/-- The binary64 value of 23/20 = 1.15 lies strictly below 1.15: the
double is 5179139571476070 / 2^52 = 1.14999…91. -/
theorem doubleRound_23_20 :
    doubleRound ((23:ℚ)/20) = 5179139571476070 * (2:ℚ)^((0:ℤ) - 52) := by
  have hf : (⌊(23:ℚ)/20 * (2:ℚ)^(52 - (0:ℤ))⌋ : ℤ) = 5179139571476070 := by
    rw [Int.floor_eq_iff]
    constructor
    · norm_num
    · norm_num
  refine doubleRound_eval _ 0 5179139571476070 (by norm_num) (by norm_num) (by norm_num) ?_
  refine (roundHalfEven_eq_floor ?_).trans hf
  rw [hf]
  norm_num

/-- `toFixed(1)` on the double of 23/20 rounds down to 1.1, although
round-half-up on the exact value 1.15 gives 1.2. -/
theorem toFixed1_double_23_20 :
    toFixed1 (5179139571476070 * (2:ℚ)^((0:ℤ) - 52)) = 11/10 := by
  have h11 : (⌊(10:ℚ) * (5179139571476070 * (2:ℚ)^((0:ℤ) - 52)) + 1/2⌋ : ℤ) = 11 := by
    rw [Int.floor_eq_iff]
    constructor
    · norm_num
    · norm_num
  unfold toFixed1 toFixedInt1
  rw [h11]
  norm_num

/-- Twenty distinct reviewers with ratings in 1–5: seventeen 1s and three
2s, so the exact mean is 23/20 = 1.15. -/
def c1subs : List (User × ℚ × String) :=
  [(⟨"u01", none⟩, 1, ""), (⟨"u02", none⟩, 1, ""), (⟨"u03", none⟩, 1, ""),
   (⟨"u04", none⟩, 1, ""), (⟨"u05", none⟩, 1, ""), (⟨"u06", none⟩, 1, ""),
   (⟨"u07", none⟩, 1, ""), (⟨"u08", none⟩, 1, ""), (⟨"u09", none⟩, 1, ""),
   (⟨"u10", none⟩, 1, ""), (⟨"u11", none⟩, 1, ""), (⟨"u12", none⟩, 1, ""),
   (⟨"u13", none⟩, 1, ""), (⟨"u14", none⟩, 1, ""), (⟨"u15", none⟩, 1, ""),
   (⟨"u16", none⟩, 1, ""), (⟨"u17", none⟩, 1, ""), (⟨"u18", none⟩, 2, ""),
   (⟨"u19", none⟩, 2, ""), (⟨"u20", none⟩, 2, "")]

/-- A one-room database with no reviews. -/
def c1db : DB := ⟨[("r1", aliceRoom)], [], []⟩

/-- C1 is false as stated: twenty distinct authenticated reviewers submit
ratings in 1–5 through `addReview` (seventeen 1s, three 2s) for a fresh
room; the final `reviews` field is 20 as claimed, but the `rating` field
is 1.1, not 1.2 = round-half-up(mean): the exact mean 23/20 = 1.15 sits
on a decimal midpoint and its nearest binary64 value lies below it, so
`toFixed(1)` rounds down. -/
theorem submitAll_mean_counterexample :
    (c1subs.map (fun s => s.2.1)).sum / (c1subs.length : ℚ) = 23/20 ∧
    (⌊(10:ℚ) * (23/20) + 1/2⌋ : ℚ) / 10 = 6/5 ∧
    ∃ room', lookupA "r1" (submitAll 3 "r1" c1subs c1db).rooms = some room' ∧
      room'.reviews = some 20 ∧ room'.rating = some (11/10) ∧ (11/10 : ℚ) ≠ 6/5 := by
  refine ⟨?_, ?_, ?_⟩
  · norm_num [c1subs]
  · norm_num
  · obtain ⟨_, _, hlook⟩ := submitAll_spec 3 "r1" c1subs c1db aliceRoom
      (by simp [c1db, lookupA])
      (by intro s hs; simp [c1db, lookupA])
      (by simp [c1subs])
    have h2 := hlook (by simp [c1subs])
    have hclean : queryReviews c1db "r1" = [] := rfl
    rw [hclean] at h2
    simp only [List.map_nil, List.nil_append, List.length_nil, Nat.zero_add] at h2
    have hmap : c1subs.map (fun s => s.2.1) =
        ([1,1,1,1,1,1,1,1,1,1,1,1,1,1,1,1,1,2,2,2] : List ℕ).map (fun (k : ℕ) => (k:ℚ)) := by
      simp [c1subs]
    have hval : computeAvg (c1subs.map (fun s => s.2.1)) = 11/10 := by
      rw [hmap, computeAvg_int _ (by simp) (by norm_num)]
      have hs : ((([1,1,1,1,1,1,1,1,1,1,1,1,1,1,1,1,1,2,2,2] : List ℕ).sum : ℕ) : ℚ) = 23 := by
        norm_num
      have hl : ((([1,1,1,1,1,1,1,1,1,1,1,1,1,1,1,1,1,2,2,2] : List ℕ).length : ℕ) : ℚ) = 20 := by
        norm_num
      rw [hs, hl, doubleRound_23_20, toFixed1_double_23_20]
    refine ⟨_, h2, ?_, ?_, by norm_num⟩
    · simp [c1subs]
    · simp [hval]

/-- Two distinct reviewers with ratings 5 and 4. -/
def c1witSubs : List (User × ℚ × String) :=
  [(⟨"wa", none⟩, 5, "good"), (⟨"wb", none⟩, 4, "ok")]

/-- Witness for the amended C1: two reviewers rate 5 and 4; the room ends
with count 2 and a one-decimal rating within 0.05 of the mean 4.5. -/
theorem submitAll_count_and_mean_witness :
    ∃ room', lookupA "r1" (submitAll 4 "r1" c1witSubs c1db).rooms = some room' ∧
      room'.reviews = some c1witSubs.length ∧
      ∃ x : ℚ, room'.rating = some x ∧ (∃ m : ℤ, x = (m:ℚ)/10) ∧
        |x - (c1witSubs.map (fun s => s.2.1)).sum / (c1witSubs.length : ℚ)| ≤ 1/20 :=
  submitAll_count_and_mean 4 c1db "r1" aliceRoom c1witSubs
    (by simp [c1db, lookupA]) rfl
    (by intro s hs; rfl)
    (by simp [c1witSubs])
    (by simp [c1witSubs])
    (by norm_num [c1witSubs])
    (by
      intro s hs
      simp [c1witSubs] at hs
      rcases hs with rfl | rfl
      · exact ⟨5, by norm_num, by norm_num, by norm_num⟩
      · exact ⟨4, by norm_num, by norm_num, by norm_num⟩)
